import Mathlib

/-!
Shallow embedding of the Firefly III dashboard aggregator (`src/app.py`).

Modelling conventions, fixed once for the whole development:

* `Decimal` amounts are embedded as `ℚ` (Python's `Decimal` is exact decimal
  arithmetic; the `float(...)` calls in the source convert the already-computed
  exact values for display, so all algebraic claims are stated over the exact
  values).
* A calendar month is embedded as the index `year * 12 + (month - 1) : ℕ`.
  For valid dates (`1 ≤ month ≤ 12`) this is injective and order-preserving,
  so the `strftime("%Y-%m")` bucket keys and label strings of the source are
  in bijection with these indices.
* `datetime` values are embedded by their calendar date: the only use of a
  record's `booked_at` in the source is `month_start(booked_at.date())`.
* Python `dict`s are embedded as association lists; assignment appends and
  lookup is last-occurrence-wins (`dictLookup`), matching dict overwrite
  semantics.  A genuine Python dict never holds a duplicate key, which
  surfaces here as `Nodup` hypotheses on the key list.
* Timestamps for the cache (`datetime.utcnow()`) are embedded as `ℤ`.
* Fallible code (`Decimal(...)`, `isoparse(...)`, HTTP fetch) is embedded in
  `Except`/`Option`.
-/

namespace FD

/-! ### Dates and months (`month_start`, `month_sequence`, app.py lines 174-185) -/

/-- Calendar date, mirroring Python's `datetime.date`.  Python enforces
`1 ≤ month ≤ 12`; here that is the separate predicate `Date.validMonth`. -/
structure Date where
  year : ℕ
  month : ℕ
  day : ℕ
deriving DecidableEq, Repr

/-- Month validity invariant maintained by Python's `date` type. -/
def Date.validMonth (d : Date) : Prop := 1 ≤ d.month ∧ d.month ≤ 12

instance (d : Date) : Decidable d.validMonth := by
  unfold Date.validMonth; infer_instance

/-- Lexicographic order on dates, mirroring Python date comparison. -/
def dateLe (a b : Date) : Prop :=
  a.year < b.year ∨ (a.year = b.year ∧
    (a.month < b.month ∨ (a.month = b.month ∧ a.day ≤ b.day)))

instance (a b : Date) : Decidable (dateLe a b) := by
  unfold dateLe; infer_instance

/-- Embedding `month_start` (app.py line 174): truncate a date to day 1. -/
def month_start (d : Date) : Date := { d with day := 1 }

/-- The month index `year * 12 + (month - 1)`, the embedding of both the
`strftime("%Y-%m")` bucket keys and of first-of-month dates. -/
def monthIdx (d : Date) : ℕ := d.year * 12 + (d.month - 1)

theorem monthIdx_month_start (d : Date) : monthIdx (month_start d) = monthIdx d := rfl

/-- Month indices respect date order on valid dates, so the loop guard
`current <= end_month` of `month_sequence` is faithfully rendered on
indices. -/
theorem monthIdx_mono {a b : Date} (ha : a.validMonth) (hb : b.validMonth)
    (h : dateLe a b) : monthIdx a ≤ monthIdx b := by
  obtain ⟨ha1, ha2⟩ := ha
  obtain ⟨hb1, hb2⟩ := hb
  unfold monthIdx
  rcases h with h | ⟨h, h2 | ⟨h2, _⟩⟩ <;> omega

/-- The `while current <= end_month` loop of `month_sequence`
(app.py lines 178-185), on month indices: `relativedelta(months=1)` applied to
a first-of-month date advances the month index by exactly one. -/
def monthSeqAux (current endM : ℕ) : List ℕ :=
  if current ≤ endM then current :: monthSeqAux (current + 1) endM else []
termination_by endM + 1 - current
decreasing_by omega

/-- Embedding of `month_sequence` (app.py lines 178-185), producing the list of
month indices from `month_start(start)` to `month_start(end)` inclusive. -/
def month_sequence (start end_ : Date) : List ℕ :=
  monthSeqAux (monthIdx (month_start start)) (monthIdx (month_start end_))

theorem monthSeqAux_eq_range (a b : ℕ) :
    monthSeqAux a b = (List.range (b + 1 - a)).map (a + ·) := by
  induction a, b using monthSeqAux.induct with
  | case1 a b h ih =>
    rw [monthSeqAux, if_pos h, ih]
    have hn : b + 1 - a = (b + 1 - (a + 1)) + 1 := by omega
    rw [hn, List.range_succ_eq_map, List.map_cons, List.map_map]
    refine congrArg₂ _ (by omega) (List.map_congr_left ?_)
    intro i _
    simp only [Function.comp_apply]
    omega
  | case2 a b h =>
    rw [monthSeqAux, if_neg h]
    have hn : b + 1 - a = 0 := by omega
    rw [hn]
    rfl

theorem month_sequence_eq_range (start end_ : Date) :
    month_sequence start end_ =
      (List.range (monthIdx (month_start end_) + 1 - monthIdx (month_start start))).map
        (monthIdx (month_start start) + ·) :=
  monthSeqAux_eq_range _ _

theorem month_sequence_nodup (start end_ : Date) : (month_sequence start end_).Nodup := by
  rw [month_sequence_eq_range]
  exact (List.nodup_range _).map (fun i j h => by omega)

theorem month_sequence_mem (start end_ : Date) (m : ℕ) :
    m ∈ month_sequence start end_ ↔
      monthIdx (month_start start) ≤ m ∧ m ≤ monthIdx (month_start end_) := by
  rw [month_sequence_eq_range]
  simp only [List.mem_map, List.mem_range]
  constructor
  · rintro ⟨i, hi, rfl⟩; omega
  · rintro ⟨h1, h2⟩
    exact ⟨m - monthIdx (month_start start), by omega, by omega⟩

/-! ### Raw payloads and the record normalizer (`FireflyClient._parse_group`, app.py lines 149-171) -/

/-- Normalized transaction record: the dictionary yielded by `_parse_group`.
`booked_at` keeps only the calendar-date part (see module header). -/
structure Rec where
  id : Option String
  type : String
  bookedAt : Date
  amount : ℚ
  currency : String
  category : String
  source : String
  destination : String
  description : String
deriving DecidableEq, Repr

/-- Raw split transaction as delivered by the API; every field can be absent
(`dict.get` returns `None`). -/
structure RawTransaction where
  transaction_journal_id : Option String := none
  amount : Option String := none
  date : Option String := none
  category_name : Option String := none
  source_name : Option String := none
  destination_name : Option String := none
  currency_code : Option String := none
  foreign_currency_code : Option String := none
deriving DecidableEq, Repr

/-- Raw transaction group; `description` and `transactions` already carry the
`attributes.get("description", "")` / `attributes.get("transactions", [])`
defaults applied by the source. -/
structure RawGroup where
  description : String := ""
  transactions : List RawTransaction := []
deriving DecidableEq, Repr

/-- Failure modes of `_parse_group`: `Decimal(...)` raising
`InvalidOperation` and `isoparse(...)` raising `TypeError`/`ValueError`. -/
inductive ParseErr where
  | badAmount
  | badDate
deriving DecidableEq, Repr

/-- Python string truthiness: `x or fallback` on an optional string returns
`x` exactly when it is present and non-empty. -/
def pyOr (x : Option String) (fallback : String) : String :=
  match x with
  | some s => if s = "" then fallback else s
  | none => fallback

/-- Numeric value of a list of decimal digit characters (all-digits check
included). -/
def digitsVal : List Char → Option ℕ
  | [] => some 0
  | c :: cs =>
    if c.isDigit then
      (digitsVal cs).map (fun v => (c.toNat - 48) * 10 ^ cs.length + v)
    else
      none

/-- Embedding of `Decimal(str(...))` on the plain-literal forms the API emits:
optional sign, integer digits, optional fractional digits (at least one digit
overall).  Exponent and other exotic `Decimal` syntax is out of scope; the
claims never depend on it. -/
def decimalOfString (s : String) : Option ℚ :=
  let cs := s.toList
  let signed : Bool × List Char :=
    match cs with
    | '-' :: rest => (true, rest)
    | '+' :: rest => (false, rest)
    | _ => (false, cs)
  let ip := signed.2.takeWhile (fun c => c ≠ '.')
  let rest := signed.2.dropWhile (fun c => c ≠ '.')
  let parts : Option (ℕ × ℕ × ℕ) :=
    match rest with
    | [] => if ip.isEmpty then none else (digitsVal ip).map (fun v => (v, 0, 0))
    | _ :: frac =>
      if ip.isEmpty && frac.isEmpty then none
      else
        match digitsVal ip, digitsVal frac with
        | some vi, some vf => some (vi, vf, frac.length)
        | _, _ => none
  parts.map (fun p =>
    let mag : ℚ := (p.1 : ℚ) + (p.2.1 : ℚ) / ((10 : ℚ) ^ p.2.2)
    if signed.1 then -mag else mag)

/-- Embedding of `dateutil.parser.isoparse` restricted to plain `YYYY-MM-DD`
calendar dates (the shape the API emits; day validity is checked coarsely as
`1..31`). -/
def parseDateStr (s : String) : Option Date :=
  match s.toList with
  | [y1, y2, y3, y4, '-', m1, m2, '-', d1, d2] =>
    if y1.isDigit && y2.isDigit && y3.isDigit && y4.isDigit &&
       m1.isDigit && m2.isDigit && d1.isDigit && d2.isDigit then
      let y := (y1.toNat - 48) * 1000 + (y2.toNat - 48) * 100 + (y3.toNat - 48) * 10 + (y4.toNat - 48)
      let m := (m1.toNat - 48) * 10 + (m2.toNat - 48)
      let d := (d1.toNat - 48) * 10 + (d2.toNat - 48)
      if 1 ≤ m ∧ m ≤ 12 ∧ 1 ≤ d ∧ d ≤ 31 then some ⟨y, m, d⟩ else none
    else none
  | _ => none

/-- Embedding of the per-transaction body of `_parse_group`
(app.py lines 152-171): parse the amount (defaulting an absent field to
`"0"`), take its absolute value, parse the booked date (an absent field makes
`isoparse(None)` raise), and apply the `or`-fallbacks for category, accounts
and currency. -/
def parse_transaction (ty : String) (desc : String) (t : RawTransaction) :
    Except ParseErr Rec :=
  match decimalOfString (t.amount.getD "0") with
  | none => .error .badAmount
  | some q =>
    match t.date with
    | none => .error .badDate
    | some ds =>
      match parseDateStr ds with
      | none => .error .badDate
      | some d =>
        .ok
          { id := t.transaction_journal_id
            type := ty
            bookedAt := d
            amount := |q|
            currency := pyOr t.currency_code (pyOr t.foreign_currency_code "")
            category := pyOr t.category_name "未分类"
            source := pyOr t.source_name "未知账户"
            destination := pyOr t.destination_name "未知账户"
            description := desc }

/-- Embedding of `_parse_group` (app.py lines 149-171): the generator yields
the group's transactions in order and the first parse failure aborts. -/
def parse_group (ty : String) (g : RawGroup) : Except ParseErr (List Rec) :=
  g.transactions.mapM (parse_transaction ty g.description)

/-- Sequential normalization of one page's `data` array
(the `for group in data: transactions.extend(...)` loop, app.py lines 139-140). -/
def parse_groups (ty : String) (gs : List RawGroup) : Except ParseErr (List Rec) := do
  let rss ← gs.mapM (parse_group ty)
  return rss.flatten

/-! ### Aggregation engine (app.py lines 188-232) -/

/-- The merged record mapping `Dict[str, List[Dict]]` produced by the fetch
orchestrator, as an association list keyed by transaction type. -/
abbrev TxMap := List (String × List Rec)

/-- Python-dict lookup on an association list built by successive assignment:
a later binding of the same key wins. -/
def dictLookup {α : Type} : List (String × α) → String → Option α
  | [], _ => none
  | p :: rest, k =>
    match dictLookup rest k with
    | some v => some v
    | none => if p.1 = k then some p.2 else none

/-- The bucket value `buckets[month][tx_type]` accumulated by the first loop
of `aggregate_monthly` (app.py lines 191-195): the sum of the amounts of all
records of the given type booked in the given calendar month. -/
def bucketAmt (txs : TxMap) (m : ℕ) (ty : String) : ℚ :=
  (txs.map (fun p =>
    if p.1 = ty then
      ((p.2.filter (fun r => monthIdx r.bookedAt = m)).map Rec.amount).sum
    else 0)).sum

/-- The `series` dictionary returned by `aggregate_monthly`: month labels
(as month indices, see module header) and the four aligned numeric series. -/
structure MonthlySeries where
  labels : List ℕ
  withdrawal : List ℚ
  deposit : List ℚ
  transfer : List ℚ
  net : List ℚ
deriving DecidableEq, Repr

/-- Embedding of `aggregate_monthly` (app.py lines 188-213): one entry per
month of `months`, zero-filled via the `defaultdict` / `.get(..., 0)`
defaults, with `net = deposit - withdrawal` per month. -/
def aggregate_monthly (txs : TxMap) (months : List ℕ) : MonthlySeries :=
  { labels := months
    withdrawal := months.map (fun m => bucketAmt txs m "withdrawal")
    deposit := months.map (fun m => bucketAmt txs m "deposit")
    transfer := months.map (fun m => bucketAmt txs m "transfer")
    net := months.map (fun m => bucketAmt txs m "deposit" - bucketAmt txs m "withdrawal") }

/-- Embedding of `aggregate_totals` (app.py lines 216-221): per-type sums over
the whole record set, then the derived `net` entry assigned last. -/
def aggregate_totals (txs : TxMap) : List (String × ℚ) :=
  let base := txs.map (fun p => (p.1, (p.2.map Rec.amount).sum))
  base ++ [("net",
    ((dictLookup base "deposit").getD 0) - ((dictLookup base "withdrawal").getD 0))]

/-- The `totals.get(key, 0.0)` read used on the totals dictionary. -/
def totalsGet (txs : TxMap) (k : String) : ℚ :=
  (dictLookup (aggregate_totals txs) k).getD 0

/-- The `tx.get(key) or "未分类"` label of `top_breakdown` (app.py line 227):
the grouping field with the empty string falling back (on normalized records
the field is always present, so only Python's empty-string falsiness is
live). -/
def breakdownLabel (f : Rec → String) (r : Rec) : String :=
  if f r = "" then "未分类" else f r

/-- One iteration of the accumulation loop of `top_breakdown`
(app.py lines 226-228): `totals[label] += tx["amount"]` on an
insertion-ordered dict. -/
def bdStep (f : Rec → String) (acc : List (String × ℚ)) (r : Rec) : List (String × ℚ) :=
  let l := breakdownLabel f r
  if acc.any (fun p => p.1 = l) then
    acc.map (fun p => if p.1 = l then (p.1, p.2 + r.amount) else p)
  else
    acc ++ [(l, r.amount)]

/-- The full `totals` dict of `top_breakdown`, in insertion
(first-encountered) order. -/
def breakdownTotals (items : List Rec) (f : Rec → String) : List (String × ℚ) :=
  items.foldl (bdStep f) []

/-- Embedding of `top_breakdown` (app.py lines 224-232): group and sum by
label, then `sorted(..., key=amount, reverse=True)` — a stable descending
sort — truncated to `limit`. -/
def top_breakdown (items : List Rec) (f : Rec → String) (limit : ℕ := 5) :
    List (String × ℚ) :=
  ((breakdownTotals items f).mergeSort (fun a b => decide (b.2 ≤ a.2))).take limit

/-- The summed amount a label carries in an accumulated breakdown dict. -/
def amtFor (l : List (String × ℚ)) (lab : String) : ℚ :=
  ((l.filter (fun p => p.1 = lab)).map (fun p => p.2)).sum

/-- The total per-type sum, as the sum over the whole mapping (the shape in
which it arises by exchanging the bucket sums). -/
def sumAmounts (txs : TxMap) (ty : String) : ℚ :=
  (txs.map (fun p => if p.1 = ty then (p.2.map Rec.amount).sum else 0)).sum

/-! ### Pure core of `prepare_context` (app.py lines 235-280)

The network fetch and `datetime.utcnow()` are external effects; the context
construction is a pure function of the resolved date range and the fetched
record mapping, embedded here with those as inputs.  `transactions[ty]` is
read with a `[]` default: the orchestrator always populates all three keys. -/

/-- The aggregated snapshot handed to the presentation layer (the fields with
algorithmic content; display-only strings and timestamps are omitted). -/
structure Context where
  monthly_labels : List ℕ
  monthly_withdrawals : List ℚ
  monthly_deposits : List ℚ
  monthly_transfers : List ℚ
  monthly_net : List ℚ
  totals : List (String × ℚ)
  average_withdrawal : ℚ
  average_deposit : ℚ
  average_net : ℚ
  top_spending_categories : List (String × ℚ)
  top_income_categories : List (String × ℚ)
  top_source_accounts : List (String × ℚ)
  top_destination_accounts : List (String × ℚ)
  top_transfer_accounts : List (String × ℚ)
  months : ℕ
deriving DecidableEq, Repr

/-- Embedding of the aggregation part of `prepare_context`
(app.py lines 235-280). -/
def prepare_context (start_date end_date : Date) (transactions : TxMap) : Context :=
  let months0 := month_sequence start_date end_date
  let months := if months0 = [] then [monthIdx (month_start start_date)] else months0
  let monthly_series := aggregate_monthly transactions months
  let totals := aggregate_totals transactions
  let month_count := max months.length 1
  { monthly_labels := monthly_series.labels
    monthly_withdrawals := monthly_series.withdrawal
    monthly_deposits := monthly_series.deposit
    monthly_transfers := monthly_series.transfer
    monthly_net := monthly_series.net
    totals := totals
    average_withdrawal := (dictLookup totals "withdrawal").getD 0 / (month_count : ℚ)
    average_deposit := (dictLookup totals "deposit").getD 0 / (month_count : ℚ)
    average_net := (dictLookup totals "net").getD 0 / (month_count : ℚ)
    top_spending_categories := top_breakdown ((dictLookup transactions "withdrawal").getD []) Rec.category
    top_income_categories := top_breakdown ((dictLookup transactions "deposit").getD []) Rec.category
    top_source_accounts := top_breakdown ((dictLookup transactions "withdrawal").getD []) Rec.source
    top_destination_accounts := top_breakdown ((dictLookup transactions "deposit").getD []) Rec.destination
    top_transfer_accounts := top_breakdown ((dictLookup transactions "transfer").getD []) Rec.destination
    months := months.length }

/-! ### Snapshot cache (`CacheEntry`, `DashboardCache.get`, app.py lines 283-309) -/

/-- Embedding of the `CacheEntry` dataclass; `expires_at` is an integer
timestamp. -/
structure CEntry (α : Type) where
  value : α
  expires_at : ℤ
deriving DecidableEq, Repr

/-- The refresh path of `DashboardCache.get` (app.py lines 302-309): run the
pipeline; an exception propagates before the entry is replaced, a success is
stored with `expires_at = now + ttl` (`now` was captured before the pipeline
ran).  The `Bool` records that the pipeline was invoked. -/
def cacheRefresh {α ε : Type} (entry : Option (CEntry α)) (now ttl : ℤ)
    (pipeline : Except ε α) : Except ε α × Option (CEntry α) × Bool :=
  match pipeline with
  | .error err => (.error err, entry, true)
  | .ok v => (.ok v, some ⟨v, now + ttl⟩, true)

/-- Embedding of `DashboardCache.get` (app.py lines 294-309): return the
stored value when an unexpired entry exists and `force_refresh` is false,
otherwise refresh.  Result: (returned value or propagated error, cache slot
after the call, whether the pipeline ran). -/
def cacheGet {α ε : Type} (entry : Option (CEntry α)) (now ttl : ℤ) (force : Bool)
    (pipeline : Except ε α) : Except ε α × Option (CEntry α) × Bool :=
  match entry with
  | some e =>
    if force = false ∧ now < e.expires_at then (.ok e.value, some e, false)
    else cacheRefresh entry now ttl pipeline
  | none => cacheRefresh entry now ttl pipeline

/-- Two successive `get` calls on the same cache slot, counting how many
pipeline runs they trigger in total. -/
def twoCalls {α ε : Type} (entry0 : Option (CEntry α)) (t0 t1 ttl : ℤ)
    (force1 force2 : Bool) (p1 p2 : Except ε α) :
    Except ε α × Except ε α × Option (CEntry α) × ℕ :=
  let r1 := cacheGet entry0 t0 ttl force1 p1
  let r2 := cacheGet r1.2.1 t1 ttl force2 p2
  (r1.1, r2.1, r2.2.1,
    (if r1.2.2 then 1 else 0) + (if r2.2.2 then 1 else 0))

/-! ### Paginated fetcher (`FireflyClient.fetch_transactions`, app.py lines 113-147) -/

/-- One page of the remote API response: the `data` array of transaction
groups and `meta.pagination.total_pages` (absent metadata is `none`, matching
`payload.get("meta", {}).get("pagination", {})` yielding an empty dict). -/
structure ApiPage where
  data : List RawGroup
  total_pages : Option ℕ
deriving Repr

/-- The `while True` page loop of `fetch_transactions` (app.py lines 126-145),
with explicit fuel: the source loop has no a-priori bound (a remote that keeps
raising `total_pages` would spin it forever), so `none` models running out of
fuel.  State: current page, accumulated records, requests issued so far. -/
def fetchLoop (api : ℕ → ApiPage) (ty : String) :
    ℕ → ℕ → List Rec → ℕ → Option (Except ParseErr (List Rec × ℕ))
  | 0, _, _, _ => none
  | fuel + 1, page, acc, reqs =>
    match parse_groups ty (api page).data with
    | .error e => some (.error e)
    | .ok recs =>
      if (api page).total_pages.getD page ≤ page then some (.ok (acc ++ recs, reqs + 1))
      else fetchLoop api ty fuel (page + 1) (acc ++ recs) (reqs + 1)

/-- Embedding of `fetch_transactions` (app.py lines 113-147): walk the page
sequence starting from page 1, returning the aggregated records and the number
of page requests issued. -/
def fetch_transactions (api : ℕ → ApiPage) (ty : String) (fuel : ℕ) :
    Option (Except ParseErr (List Rec × ℕ)) :=
  fetchLoop api ty fuel 1 [] 0

/-! ### Helper lemmas: list sums, dict lookups -/

theorem sum_map_add {β : Type} (l : List β) (f g : β → ℚ) :
    (l.map (fun x => f x + g x)).sum = (l.map f).sum + (l.map g).sum := by
  induction l with
  | nil => simp
  | cons x xs ih => simp [ih]; ring

theorem sum_map_sub {β : Type} (l : List β) (f g : β → ℚ) :
    (l.map (fun x => f x - g x)).sum = (l.map f).sum - (l.map g).sum := by
  induction l with
  | nil => simp
  | cons x xs ih => simp [ih]; ring

theorem sum_map_zero {β : Type} (l : List β) :
    (l.map (fun _ => (0 : ℚ))).sum = 0 := by
  induction l with
  | nil => rfl
  | cons x xs ih => simp [ih]

theorem sum_indicator_of_not_mem (S : List ℕ) (k : ℕ) (a : ℚ) (h : k ∉ S) :
    (S.map (fun m => if k = m then a else 0)).sum = 0 := by
  induction S with
  | nil => rfl
  | cons m S ih =>
    simp only [List.mem_cons, not_or] at h
    simp [if_neg h.1, ih h.2]

theorem sum_indicator_of_mem (S : List ℕ) (k : ℕ) (a : ℚ) (hnd : S.Nodup)
    (hm : k ∈ S) : (S.map (fun m => if k = m then a else 0)).sum = a := by
  induction S with
  | nil => cases hm
  | cons m S ih =>
    rcases List.mem_cons.mp hm with rfl | hm'
    · have hk : k ∉ S := (List.nodup_cons.mp hnd).1
      simp [sum_indicator_of_not_mem S k a hk]
    · have hne : k ≠ m := by
        rintro rfl; exact (List.nodup_cons.mp hnd).1 hm'
      simp [if_neg hne, ih (List.nodup_cons.mp hnd).2 hm']

theorem sum_over_months_of_filter (items : List Rec) (S : List ℕ) (hnd : S.Nodup)
    (hin : ∀ r ∈ items, monthIdx r.bookedAt ∈ S) :
    (S.map (fun m =>
      ((items.filter (fun r => monthIdx r.bookedAt = m)).map Rec.amount).sum)).sum =
    (items.map Rec.amount).sum := by
  induction items with
  | nil => simp [sum_map_zero S]
  | cons r items ih =>
    have hr : monthIdx r.bookedAt ∈ S := hin r (List.mem_cons_self r items)
    have hrest : ∀ x ∈ items, monthIdx x.bookedAt ∈ S :=
      fun x hx => hin x (List.mem_cons_of_mem r hx)
    have hsplit : ∀ m : ℕ,
        (((r :: items).filter (fun x => monthIdx x.bookedAt = m)).map Rec.amount).sum =
        (if monthIdx r.bookedAt = m then r.amount else 0) +
          ((items.filter (fun x => monthIdx x.bookedAt = m)).map Rec.amount).sum := by
      intro m
      by_cases h : monthIdx r.bookedAt = m
      · simp [List.filter_cons, h]
      · simp [List.filter_cons, h]
    calc (S.map (fun m =>
            (((r :: items).filter (fun x => monthIdx x.bookedAt = m)).map Rec.amount).sum)).sum
        = (S.map (fun m =>
            (if monthIdx r.bookedAt = m then r.amount else 0) +
              ((items.filter (fun x => monthIdx x.bookedAt = m)).map Rec.amount).sum)).sum := by
          exact congrArg _ (List.map_congr_left (fun m _ => hsplit m))
      _ = (S.map (fun m => if monthIdx r.bookedAt = m then r.amount else 0)).sum +
            (S.map (fun m =>
              ((items.filter (fun x => monthIdx x.bookedAt = m)).map Rec.amount).sum)).sum :=
          sum_map_add S _ _
      _ = r.amount + (items.map Rec.amount).sum := by
          rw [sum_indicator_of_mem S _ _ hnd hr, ih hrest]
      _ = ((r :: items).map Rec.amount).sum := by simp

theorem sum_swap {β : Type} (S : List ℕ) (txs : List β) (g : ℕ → β → ℚ) :
    (S.map (fun m => (txs.map (fun p => g m p)).sum)).sum =
    (txs.map (fun p => (S.map (fun m => g m p)).sum)).sum := by
  induction txs with
  | nil => simp [sum_map_zero S]
  | cons x xs ih =>
    calc (S.map (fun m => ((x :: xs).map (fun p => g m p)).sum)).sum
        = (S.map (fun m => g m x + (xs.map (fun p => g m p)).sum)).sum := by simp
      _ = (S.map (fun m => g m x)).sum +
            (S.map (fun m => (xs.map (fun p => g m p)).sum)).sum := sum_map_add S _ _
      _ = (S.map (fun m => g m x)).sum +
            (xs.map (fun p => (S.map (fun m => g m p)).sum)).sum := by rw [ih]
      _ = ((x :: xs).map (fun p => (S.map (fun m => g m p)).sum)).sum := by simp

theorem dictLookup_append_single_same {α : Type} (l : List (String × α)) (k : String)
    (v : α) : dictLookup (l ++ [(k, v)]) k = some v := by
  induction l with
  | nil => simp [dictLookup]
  | cons p rest ih => simp [dictLookup, ih]

theorem dictLookup_append_single_ne {α : Type} (l : List (String × α)) (k k' : String)
    (v : α) (h : k' ≠ k) : dictLookup (l ++ [(k, v)]) k' = dictLookup l k' := by
  induction l with
  | nil =>
    simp only [List.nil_append, dictLookup]
    rw [if_neg (Ne.symm h)]
  | cons p rest ih => simp only [List.cons_append, dictLookup, List.append_eq, ih]

theorem dictLookup_eq_none {α : Type} (l : List (String × α)) (k : String)
    (h : k ∉ l.map Prod.fst) : dictLookup l k = none := by
  induction l with
  | nil => rfl
  | cons p rest ih =>
    simp only [List.map_cons, List.mem_cons, not_or] at h
    have h1 : p.1 ≠ k := fun hh => h.1 hh.symm
    simp only [dictLookup, ih h.2, if_neg h1]

theorem sumAmounts_eq_zero_of_not_mem (txs : TxMap) (ty : String)
    (h : ty ∉ txs.map Prod.fst) : sumAmounts txs ty = 0 := by
  induction txs with
  | nil => rfl
  | cons p rest ih =>
    simp only [List.map_cons, List.mem_cons, not_or] at h
    have h1 : p.1 ≠ ty := fun hh => h.1 hh.symm
    have hz : sumAmounts rest ty = 0 := ih h.2
    unfold sumAmounts at hz ⊢
    simp only [List.map_cons, List.sum_cons, if_neg h1, hz, zero_add]

theorem totalsBase_lookup (txs : TxMap) (ty : String)
    (hnd : (txs.map Prod.fst).Nodup) :
    (dictLookup (txs.map (fun p => (p.1, (p.2.map Rec.amount).sum))) ty).getD 0 =
      sumAmounts txs ty := by
  induction txs with
  | nil => rfl
  | cons p rest ih =>
    simp only [List.map_cons, List.nodup_cons] at hnd
    by_cases hpt : p.1 = ty
    · have hnm : ty ∉ rest.map Prod.fst := hpt ▸ hnd.1
      have hnone : dictLookup (rest.map (fun p => (p.1, (p.2.map Rec.amount).sum))) ty = none := by
        apply dictLookup_eq_none
        simpa [List.map_map, Function.comp] using hnm
      have hz : sumAmounts rest ty = 0 := sumAmounts_eq_zero_of_not_mem rest ty hnm
      unfold sumAmounts at hz ⊢
      simp only [List.map_cons, dictLookup, hnone, if_pos hpt, List.sum_cons, hz,
        add_zero, Option.getD_some, if_pos hpt]
    · have hih := ih hnd.2
      have hstep : sumAmounts (p :: rest) ty = sumAmounts rest ty := by
        unfold sumAmounts
        simp only [List.map_cons, List.sum_cons, if_neg hpt, zero_add]
      rw [hstep, ← hih]
      cases hdl : dictLookup (rest.map (fun p => (p.1, (p.2.map Rec.amount).sum))) ty with
      | some v => simp only [List.map_cons, dictLookup, hdl]
      | none => simp only [List.map_cons, dictLookup, hdl, if_neg hpt]

theorem totalsGet_eq_sumAmounts (txs : TxMap) (ty : String)
    (hnd : (txs.map Prod.fst).Nodup) (hne : ty ≠ "net") :
    totalsGet txs ty = sumAmounts txs ty := by
  unfold totalsGet aggregate_totals
  rw [dictLookup_append_single_ne _ _ _ _ hne]
  exact totalsBase_lookup txs ty hnd

theorem totalsGet_net (txs : TxMap) :
    totalsGet txs "net" = totalsGet txs "deposit" - totalsGet txs "withdrawal" := by
  unfold totalsGet aggregate_totals
  rw [dictLookup_append_single_same,
    dictLookup_append_single_ne _ _ _ _ (by decide),
    dictLookup_append_single_ne _ _ _ _ (by decide)]
  rfl

theorem sum_bucket_over_months (txs : TxMap) (S : List ℕ) (ty : String)
    (hnd : S.Nodup)
    (hin : ∀ p ∈ txs, ∀ r ∈ p.2, monthIdx r.bookedAt ∈ S) :
    (S.map (fun m => bucketAmt txs m ty)).sum = sumAmounts txs ty := by
  unfold bucketAmt
  rw [sum_swap]
  unfold sumAmounts
  refine congrArg _ (List.map_congr_left ?_)
  intro p hp
  by_cases hc : p.1 = ty
  · simp only [if_pos hc]
    exact sum_over_months_of_filter p.2 S hnd (hin p hp)
  · simp only [if_neg hc]
    exact sum_map_zero S

/-! ### Claim C1 -/

/-- Claim C1, as stated, is false: a record booked in a month outside the
TimeRange's month sequence is counted in the overall totals but contributes to
no entry of the monthly series.  Concretely, a single withdrawal of 100 booked
2023-01-15 aggregated over the range 2024-01-01..2024-01-31 gives a monthly
net series summing to 0 while the totals report net = -100. -/
theorem C1_counterexample :
    ((aggregate_monthly
        [("withdrawal", [⟨none, "withdrawal", ⟨2023, 1, 15⟩, 100, "", "c", "s", "d", ""⟩])]
        (month_sequence ⟨2024, 1, 1⟩ ⟨2024, 1, 31⟩)).net).sum ≠
      totalsGet
        [("withdrawal", [⟨none, "withdrawal", ⟨2023, 1, 15⟩, 100, "", "c", "s", "d", ""⟩])]
        "net" := by
  rw [month_sequence_eq_range]
  norm_num [aggregate_monthly, bucketAmt, totalsGet, aggregate_totals, dictLookup,
    monthIdx, month_start, List.filter, List.range_succ]
  rw [if_neg (show ¬("withdrawal" : String) = "deposit" by decide)]
  norm_num

/-- Claim C1 (amended): for every merged record mapping whose records are all
booked inside the TimeRange's month sequence, the sum over the monthly series
of the per-month net values equals the overall totals net; and (without any
restriction) the totals net equals the totals deposit minus the totals
withdrawal. -/
theorem C1_net_sum (txs : TxMap) (start end_ : Date)
    (hkeys : (txs.map Prod.fst).Nodup)
    (hin : ∀ p ∈ txs, ∀ r ∈ p.2, monthIdx r.bookedAt ∈ month_sequence start end_) :
    ((aggregate_monthly txs (month_sequence start end_)).net).sum = totalsGet txs "net" ∧
    totalsGet txs "net" = totalsGet txs "deposit" - totalsGet txs "withdrawal" := by
  refine ⟨?_, totalsGet_net txs⟩
  have hnd := month_sequence_nodup start end_
  calc ((aggregate_monthly txs (month_sequence start end_)).net).sum
      = ((month_sequence start end_).map
          (fun m => bucketAmt txs m "deposit")).sum -
        ((month_sequence start end_).map
          (fun m => bucketAmt txs m "withdrawal")).sum := by
        exact sum_map_sub _ _ _
    _ = sumAmounts txs "deposit" - sumAmounts txs "withdrawal" := by
        rw [sum_bucket_over_months txs _ "deposit" hnd hin,
          sum_bucket_over_months txs _ "withdrawal" hnd hin]
    _ = totalsGet txs "deposit" - totalsGet txs "withdrawal" := by
        rw [totalsGet_eq_sumAmounts txs "deposit" hkeys (by decide),
          totalsGet_eq_sumAmounts txs "withdrawal" hkeys (by decide)]
    _ = totalsGet txs "net" := (totalsGet_net txs).symm

/-- Witness for `C1_net_sum`: the end-to-end example of the spec (a withdrawal
of 100 on 2024-01-15, a deposit of 300 on 2024-01-20, a withdrawal of 50 on
2024-02-01 over the range 2024-01-01..2024-02-28). -/
theorem C1_net_sum_witness :
    ((aggregate_monthly
        [("withdrawal",
           [⟨none, "withdrawal", ⟨2024, 1, 15⟩, 100, "", "c", "s", "d", ""⟩,
            ⟨none, "withdrawal", ⟨2024, 2, 1⟩, 50, "", "c", "s", "d", ""⟩]),
         ("deposit", [⟨none, "deposit", ⟨2024, 1, 20⟩, 300, "", "c", "s", "d", ""⟩])]
        (month_sequence ⟨2024, 1, 1⟩ ⟨2024, 2, 28⟩)).net).sum =
      totalsGet
        [("withdrawal",
           [⟨none, "withdrawal", ⟨2024, 1, 15⟩, 100, "", "c", "s", "d", ""⟩,
            ⟨none, "withdrawal", ⟨2024, 2, 1⟩, 50, "", "c", "s", "d", ""⟩]),
         ("deposit", [⟨none, "deposit", ⟨2024, 1, 20⟩, 300, "", "c", "s", "d", ""⟩])]
        "net" :=
  (C1_net_sum _ ⟨2024, 1, 1⟩ ⟨2024, 2, 28⟩ (by decide)
    (by simp [month_sequence_mem, monthIdx, month_start])).1

/-! ### Claim C2 -/

theorem chain_consecutive_range_map (a n : ℕ) :
    List.Chain' (fun x y => y = x + 1) ((List.range n).map (a + ·)) := by
  rw [List.chain'_iff_get]
  intro i h
  simp only [List.get_eq_getElem, List.getElem_map, List.getElem_range]
  omega

theorem bucketAmt_eq_zero (txs : TxMap) (m : ℕ) (ty : String)
    (h : ∀ p ∈ txs, ∀ r ∈ p.2, monthIdx r.bookedAt ≠ m) :
    bucketAmt txs m ty = 0 := by
  unfold bucketAmt
  have : ∀ p ∈ txs,
      (if p.1 = ty then
        ((p.2.filter (fun r => monthIdx r.bookedAt = m)).map Rec.amount).sum
      else 0) = (0 : ℚ) := by
    intro p hp
    have hf : p.2.filter (fun r => monthIdx r.bookedAt = m) = [] := by
      rw [List.filter_eq_nil_iff]
      intro r hr
      simpa using h p hp r hr
    rw [hf]
    simp
  rw [List.map_congr_left this]
  exact sum_map_zero txs

/-- Claim C2: for every TimeRange with `start <= end`, the monthly series has
exactly one entry per calendar month from `monthStart(start)` to
`monthStart(end)` inclusive; its labels are strictly increasing consecutive
months with no gaps; every numeric series is the 1:1 chronologically ascending
map over those labels; and a month with no matching records reports zero for
withdrawal, deposit, transfer and net. -/
theorem C2_monthly_series_shape (start end_ : Date) (txs : TxMap)
    (hs : start.validMonth) (he : end_.validMonth) (hle : dateLe start end_) :
    (aggregate_monthly txs (month_sequence start end_)).labels =
        month_sequence start end_ ∧
    (month_sequence start end_).length =
        monthIdx (month_start end_) + 1 - monthIdx (month_start start) ∧
    1 ≤ (month_sequence start end_).length ∧
    (month_sequence start end_).Nodup ∧
    (∀ m, m ∈ month_sequence start end_ ↔
        monthIdx (month_start start) ≤ m ∧ m ≤ monthIdx (month_start end_)) ∧
    List.Chain' (fun x y => y = x + 1) (month_sequence start end_) ∧
    (aggregate_monthly txs (month_sequence start end_)).withdrawal =
        (month_sequence start end_).map (fun m => bucketAmt txs m "withdrawal") ∧
    (aggregate_monthly txs (month_sequence start end_)).deposit =
        (month_sequence start end_).map (fun m => bucketAmt txs m "deposit") ∧
    (aggregate_monthly txs (month_sequence start end_)).transfer =
        (month_sequence start end_).map (fun m => bucketAmt txs m "transfer") ∧
    (aggregate_monthly txs (month_sequence start end_)).net =
        (month_sequence start end_).map
          (fun m => bucketAmt txs m "deposit" - bucketAmt txs m "withdrawal") ∧
    (aggregate_monthly txs (month_sequence start end_)).withdrawal.length =
        (aggregate_monthly txs (month_sequence start end_)).labels.length ∧
    (aggregate_monthly txs (month_sequence start end_)).deposit.length =
        (aggregate_monthly txs (month_sequence start end_)).labels.length ∧
    (aggregate_monthly txs (month_sequence start end_)).transfer.length =
        (aggregate_monthly txs (month_sequence start end_)).labels.length ∧
    (aggregate_monthly txs (month_sequence start end_)).net.length =
        (aggregate_monthly txs (month_sequence start end_)).labels.length ∧
    (∀ m ∈ month_sequence start end_,
      (∀ p ∈ txs, ∀ r ∈ p.2, monthIdx r.bookedAt ≠ m) →
        bucketAmt txs m "withdrawal" = 0 ∧ bucketAmt txs m "deposit" = 0 ∧
        bucketAmt txs m "transfer" = 0 ∧
        bucketAmt txs m "deposit" - bucketAmt txs m "withdrawal" = 0) := by
  have hAB : monthIdx (month_start start) ≤ monthIdx (month_start end_) := by
    rw [monthIdx_month_start, monthIdx_month_start]
    exact monthIdx_mono hs he hle
  refine ⟨rfl, ?_, ?_, month_sequence_nodup start end_, month_sequence_mem start end_,
    ?_, rfl, rfl, rfl, rfl, by simp [aggregate_monthly], by simp [aggregate_monthly],
    by simp [aggregate_monthly], by simp [aggregate_monthly], ?_⟩
  · simp [month_sequence_eq_range]
  · simp only [month_sequence_eq_range, List.length_map, List.length_range]
    omega
  · rw [month_sequence_eq_range]
    exact chain_consecutive_range_map _ _
  · intro m _ hno
    have hw := bucketAmt_eq_zero txs m "withdrawal" hno
    have hd := bucketAmt_eq_zero txs m "deposit" hno
    have ht := bucketAmt_eq_zero txs m "transfer" hno
    exact ⟨hw, hd, ht, by rw [hw, hd, sub_zero]⟩

/-- Witness for `C2_monthly_series_shape`: the range 2024-01-05..2024-03-20
has the three labels 2024-01, 2024-02, 2024-03 (a closed instance extracted by
applying the theorem at that concrete range). -/
theorem C2_monthly_series_shape_witness :
    dateLe ⟨2024, 1, 5⟩ ⟨2024, 3, 20⟩ ∧
    (month_sequence ⟨2024, 1, 5⟩ ⟨2024, 3, 20⟩).length = 3 := by
  refine ⟨by decide, ?_⟩
  have h := (C2_monthly_series_shape ⟨2024, 1, 5⟩ ⟨2024, 3, 20⟩ []
    (by decide) (by decide) (by decide)).2.1
  rw [h]
  norm_num [monthIdx, month_start]

/-! ### Helper lemmas: the breakdown accumulation dict -/

theorem bdStep_keys_of_mem (f : Rec → String) (acc : List (String × ℚ)) (r : Rec)
    (h : acc.any (fun p => p.1 = breakdownLabel f r) = true) :
    (bdStep f acc r).map Prod.fst = acc.map Prod.fst := by
  unfold bdStep
  rw [if_pos h, List.map_map]
  refine List.map_congr_left ?_
  intro p _
  by_cases hp : p.1 = breakdownLabel f r <;> simp [hp]

theorem bdStep_keys_of_not_mem (f : Rec → String) (acc : List (String × ℚ)) (r : Rec)
    (h : acc.any (fun p => p.1 = breakdownLabel f r) = false) :
    (bdStep f acc r).map Prod.fst = acc.map Prod.fst ++ [breakdownLabel f r] := by
  unfold bdStep
  rw [if_neg (by simp [h]), List.map_append]
  rfl

theorem bdStep_keys_nodup (f : Rec → String) (acc : List (String × ℚ)) (r : Rec)
    (h : (acc.map Prod.fst).Nodup) : ((bdStep f acc r).map Prod.fst).Nodup := by
  cases hany : acc.any (fun p => p.1 = breakdownLabel f r) with
  | true => rw [bdStep_keys_of_mem f acc r hany]; exact h
  | false =>
    rw [bdStep_keys_of_not_mem f acc r hany]
    rw [List.nodup_append]
    refine ⟨h, List.nodup_singleton _, ?_⟩
    intro k hk hk1
    rw [List.any_eq_false] at hany
    simp only [List.mem_singleton] at hk1
    obtain ⟨p, hp, hpk⟩ := List.mem_map.mp hk
    exact hany p hp (by simp [hpk, hk1])

theorem filter_key_eq_singleton {α : Type} (acc : List (String × α)) (l : String)
    (hnd : (acc.map Prod.fst).Nodup) (hmem : l ∈ acc.map Prod.fst) :
    ∃ v, acc.filter (fun p => p.1 = l) = [(l, v)] := by
  induction acc with
  | nil => cases hmem
  | cons p rest ih =>
    simp only [List.map_cons, List.nodup_cons] at hnd
    rcases List.mem_cons.mp hmem with h1 | h2
    · refine ⟨p.2, ?_⟩
      have hnone : rest.filter (fun q => q.1 = l) = [] := by
        rw [List.filter_eq_nil_iff]
        intro q hq
        simp only [decide_eq_true_eq]
        intro hql
        exact hnd.1 (h1 ▸ hql ▸ List.mem_map_of_mem Prod.fst hq)
      simp [List.filter_cons, h1.symm, hnone]
      exact Prod.ext h1.symm rfl
    · have hne : p.1 ≠ l := by
        rintro rfl
        exact hnd.1 h2
      obtain ⟨v, hv⟩ := ih hnd.2 h2
      exact ⟨v, by simp [List.filter_cons, hne, hv]⟩

theorem amtFor_of_filter_singleton {v : ℚ} {acc : List (String × ℚ)} {l : String}
    (h : acc.filter (fun p => p.1 = l) = [(l, v)]) : amtFor acc l = v := by
  unfold amtFor
  rw [h]
  simp

theorem amtFor_update (acc : List (String × ℚ)) (l lab : String) (a : ℚ)
    (hnd : (acc.map Prod.fst).Nodup) (hmem : l ∈ acc.map Prod.fst) :
    amtFor (acc.map (fun p => if p.1 = l then (p.1, p.2 + a) else p)) lab =
      amtFor acc lab + (if l = lab then a else 0) := by
  induction acc with
  | nil => cases hmem
  | cons p rest ih =>
    simp only [List.map_cons, List.nodup_cons] at hnd
    by_cases hpl : p.1 = l
    · have hid : rest.map (fun q => if q.1 = l then (q.1, q.2 + a) else q) = rest := by
        have heq : rest.map (fun q => if q.1 = l then (q.1, q.2 + a) else q) =
            rest.map id := by
          refine List.map_congr_left ?_
          intro q hq
          have hql : q.1 ≠ l := by
            rintro rfl
            exact hnd.1 (hpl ▸ List.mem_map_of_mem Prod.fst hq)
          rw [if_neg hql]
          rfl
        rw [heq, List.map_id]
      rw [List.map_cons, hid, if_pos hpl]
      by_cases hll : l = lab
      · have hplab : p.1 = lab := hpl.trans hll
        unfold amtFor
        simp [List.filter_cons, hplab, if_pos hll]
        ring
      · have hplab : p.1 ≠ lab := fun hh => hll (hpl ▸ hh)
        unfold amtFor
        simp [List.filter_cons, hplab, if_neg hll]
    · have hmem' : l ∈ rest.map Prod.fst := by
        rcases List.mem_cons.mp hmem with h1 | h2
        · exact absurd h1.symm hpl
        · exact h2
      have hrec := ih hnd.2 hmem'
      rw [List.map_cons, if_neg hpl]
      by_cases hplab : p.1 = lab
      · unfold amtFor at hrec ⊢
        simp [List.filter_cons, hplab] at hrec ⊢
        rw [hrec]
        ring
      · unfold amtFor at hrec ⊢
        simp [List.filter_cons, hplab] at hrec ⊢
        rw [hrec]

theorem amtFor_bdStep (f : Rec → String) (acc : List (String × ℚ)) (r : Rec)
    (lab : String) (hnd : (acc.map Prod.fst).Nodup) :
    amtFor (bdStep f acc r) lab =
      amtFor acc lab + (if breakdownLabel f r = lab then r.amount else 0) := by
  cases hany : acc.any (fun p => p.1 = breakdownLabel f r) with
  | false =>
    unfold bdStep
    rw [if_neg (by simp [hany])]
    unfold amtFor
    rw [List.filter_append, List.map_append, List.sum_append]
    by_cases hl : breakdownLabel f r = lab <;> simp [List.filter_cons, hl]
  | true =>
    have hmem : breakdownLabel f r ∈ acc.map Prod.fst := by
      rw [List.any_eq_true] at hany
      obtain ⟨p, hp, hpl⟩ := hany
      simp only [decide_eq_true_eq] at hpl
      exact hpl ▸ List.mem_map_of_mem Prod.fst hp
    unfold bdStep
    rw [if_pos hany]
    exact amtFor_update acc (breakdownLabel f r) lab r.amount hnd hmem

theorem bdFold_keys_nodup (f : Rec → String) (items : List Rec) :
    ∀ acc : List (String × ℚ), (acc.map Prod.fst).Nodup →
      ((items.foldl (bdStep f) acc).map Prod.fst).Nodup := by
  induction items with
  | nil => intro acc h; exact h
  | cons r items ih =>
    intro acc h
    exact ih (bdStep f acc r) (bdStep_keys_nodup f acc r h)

theorem bdFold_amtFor (f : Rec → String) (lab : String) (items : List Rec) :
    ∀ acc : List (String × ℚ), (acc.map Prod.fst).Nodup →
      amtFor (items.foldl (bdStep f) acc) lab =
        amtFor acc lab +
          ((items.filter (fun r => breakdownLabel f r = lab)).map Rec.amount).sum := by
  induction items with
  | nil => intro acc _; simp
  | cons r items ih =>
    intro acc h
    rw [List.foldl_cons, ih (bdStep f acc r) (bdStep_keys_nodup f acc r h),
      amtFor_bdStep f acc r lab h]
    by_cases hl : breakdownLabel f r = lab
    · simp [List.filter_cons, hl]
      ring
    · simp [List.filter_cons, hl]

theorem breakdownTotals_keys_nodup (items : List Rec) (f : Rec → String) :
    ((breakdownTotals items f).map Prod.fst).Nodup :=
  bdFold_keys_nodup f items [] (by simp)

theorem breakdownTotals_amtFor (items : List Rec) (f : Rec → String) (lab : String) :
    amtFor (breakdownTotals items f) lab =
      ((items.filter (fun r => breakdownLabel f r = lab)).map Rec.amount).sum := by
  have := bdFold_amtFor f lab items [] (by simp)
  simpa [amtFor] using this

/-! ### Helper lemmas: the stable descending sort of `top_breakdown` -/

theorem bdLe_trans (a b c : String × ℚ) (hab : decide (b.2 ≤ a.2) = true)
    (hbc : decide (c.2 ≤ b.2) = true) : decide (c.2 ≤ a.2) = true := by
  simp only [decide_eq_true_eq] at *
  exact le_trans hbc hab

theorem bdLe_total (a b : String × ℚ) :
    (decide (b.2 ≤ a.2) || decide (a.2 ≤ b.2)) = true := by
  simp [le_total b.2 a.2]

theorem mergeSort_filter_tied (l : List (String × ℚ)) (v : ℚ) :
    ((l.mergeSort (fun a b => decide (b.2 ≤ a.2))).filter (fun p => decide (p.2 = v))) =
      l.filter (fun p => decide (p.2 = v)) := by
  have hsorted : (l.filter (fun p => decide (p.2 = v))).Pairwise
      (fun a b => (fun a b : String × ℚ => decide (b.2 ≤ a.2)) a b = true) := by
    refine List.pairwise_of_forall_mem_list ?_
    intro a ha b hb
    have hav := List.of_mem_filter ha
    have hbv := List.of_mem_filter hb
    simp only [decide_eq_true_eq] at hav hbv ⊢
    rw [hav, hbv]
  have hsub : (l.filter (fun p => decide (p.2 = v))).Sublist
      (l.mergeSort (fun a b => decide (b.2 ≤ a.2))) :=
    List.sublist_mergeSort bdLe_trans bdLe_total hsorted (List.filter_sublist l)
  have hself : (l.filter (fun p => decide (p.2 = v))).filter
      (fun p => decide (p.2 = v)) = l.filter (fun p => decide (p.2 = v)) := by
    rw [List.filter_eq_self]
    intro a ha
    exact (List.mem_filter.mp ha).2
  have hsub2 : (l.filter (fun p => decide (p.2 = v))).Sublist
      ((l.mergeSort (fun a b => decide (b.2 ≤ a.2))).filter (fun p => decide (p.2 = v))) := by
    have := List.Sublist.filter (fun p => decide (p.2 = v)) hsub
    rwa [hself] at this
  have hperm : ((l.mergeSort (fun a b => decide (b.2 ≤ a.2))).filter
      (fun p => decide (p.2 = v))).Perm (l.filter (fun p => decide (p.2 = v))) :=
    List.Perm.filter _ (List.mergeSort_perm l _)
  exact (hsub2.eq_of_length hperm.length_eq.symm).symm

/-! ### Claims C4 and C5 -/

/-- Claim C4, as stated, is false: the normalizer's fallback labels are the
Chinese strings `未分类` ("uncategorized") and `未知账户` ("unknown account"),
not the English labels `"Uncategorized"` / `"Unknown account"` the claim
names.  Concretely, parsing a transaction with absent `category_name`,
`source_name` and `destination_name` fields yields those Chinese labels. -/
theorem C4_counterexample :
    (parse_transaction "withdrawal" ""
        ⟨none, some "5", some "2024-01-15", none, none, none, none, none⟩).map
        Rec.category = .ok "未分类" ∧
    ("未分类" : String) ≠ "Uncategorized" ∧
    (parse_transaction "withdrawal" ""
        ⟨none, some "5", some "2024-01-15", none, none, none, none, none⟩).map
        Rec.source = .ok "未知账户" ∧
    ("未知账户" : String) ≠ "Unknown account" := by
  have h : parse_transaction "withdrawal" ""
      ⟨none, some "5", some "2024-01-15", none, none, none, none, none⟩ =
      .ok ⟨none, "withdrawal", ⟨2024, 1, 15⟩, 5, "", "未分类", "未知账户", "未知账户", ""⟩ := by
    simp [parse_transaction, decimalOfString, digitsVal, parseDateStr, pyOr]
  refine ⟨by rw [h]; rfl, by decide, by rw [h]; rfl, by decide⟩

/-- Claim C4 (amended): a missing or empty `category_name` normalizes to the
label `未分类` and a missing or empty `source_name` / `destination_name` to
`未知账户` (the code's Chinese equivalents of "Uncategorized" / "Unknown
account"); and breakdown grouping merges records carrying the same label into
a single entry whose amount is the sum over those records (labels are unique
in the accumulated dict). -/
theorem C4_fallback_labels :
    (∀ (ty desc : String) (t : RawTransaction) (r : Rec),
      parse_transaction ty desc t = .ok r →
        ((t.category_name = none ∨ t.category_name = some "") → r.category = "未分类") ∧
        ((t.source_name = none ∨ t.source_name = some "") → r.source = "未知账户") ∧
        ((t.destination_name = none ∨ t.destination_name = some "") →
          r.destination = "未知账户")) ∧
    (∀ (items : List Rec) (f : Rec → String),
      ((breakdownTotals items f).map Prod.fst).Nodup) ∧
    (∀ (items : List Rec) (f : Rec → String) (lab : String),
      amtFor (breakdownTotals items f) lab =
        ((items.filter (fun r => breakdownLabel f r = lab)).map Rec.amount).sum) := by
  refine ⟨?_, fun items f => breakdownTotals_keys_nodup items f,
    fun items f lab => breakdownTotals_amtFor items f lab⟩
  intro ty desc t r h
  unfold parse_transaction at h
  split at h
  · exact absurd h (by simp)
  · split at h
    · exact absurd h (by simp)
    · split at h
      · exact absurd h (by simp)
      · simp only [Except.ok.injEq] at h
        subst h
        refine ⟨?_, ?_, ?_⟩ <;>
          · rintro (hc | hc) <;> simp [pyOr, hc]

/-- Witness for `C4_fallback_labels`: a concrete transaction with all three
optional name fields absent normalizes to the fallback labels. -/
theorem C4_fallback_labels_witness :
    parse_transaction "withdrawal" ""
        ⟨none, some "5", some "2024-01-15", none, none, none, none, none⟩ =
      .ok ⟨none, "withdrawal", ⟨2024, 1, 15⟩, 5, "", "未分类", "未知账户", "未知账户", ""⟩ ∧
    (⟨none, "withdrawal", ⟨2024, 1, 15⟩, 5, "", "未分类", "未知账户", "未知账户", ""⟩ : Rec).category
        = "未分类" ∧
    (⟨none, "withdrawal", ⟨2024, 1, 15⟩, 5, "", "未分类", "未知账户", "未知账户", ""⟩ : Rec).source
        = "未知账户" := by
  have h : parse_transaction "withdrawal" ""
      ⟨none, some "5", some "2024-01-15", none, none, none, none, none⟩ =
      .ok ⟨none, "withdrawal", ⟨2024, 1, 15⟩, 5, "", "未分类", "未知账户", "未知账户", ""⟩ := by
    simp [parse_transaction, decimalOfString, digitsVal, parseDateStr, pyOr]
  have hf := (C4_fallback_labels.1 "withdrawal" ""
    ⟨none, some "5", some "2024-01-15", none, none, none, none, none⟩ _ h)
  exact ⟨h, hf.1 (Or.inl rfl), hf.2.1 (Or.inl rfl)⟩

/-- Claim C5: with the default limit, `top_breakdown` returns at most 5
entries, sorted descending by summed amount, and entries with equal summed
amounts appear in the order their labels were first encountered during
aggregation (the output restricted to any amount value is a sublist of the
insertion-ordered totals dict). -/
theorem C5_top_breakdown_order (items : List Rec) (f : Rec → String) :
    (top_breakdown items f 5).length ≤ 5 ∧
    List.Pairwise (fun a b : String × ℚ => b.2 ≤ a.2) (top_breakdown items f 5) ∧
    ∀ v : ℚ,
      ((top_breakdown items f 5).filter (fun p => decide (p.2 = v))).Sublist
        ((breakdownTotals items f).filter (fun p => decide (p.2 = v))) := by
  refine ⟨?_, ?_, ?_⟩
  · unfold top_breakdown
    rw [List.length_take]
    exact inf_le_left
  · have hs := List.sorted_mergeSort bdLe_trans bdLe_total (breakdownTotals items f)
    have hs' : ((breakdownTotals items f).mergeSort
        (fun a b => decide (b.2 ≤ a.2))).Pairwise (fun a b : String × ℚ => b.2 ≤ a.2) :=
      hs.imp (fun hab => of_decide_eq_true hab)
    exact List.Pairwise.sublist (List.take_sublist 5 _) hs'
  · intro v
    have hsub := List.Sublist.filter (fun p : String × ℚ => decide (p.2 = v))
      (List.take_sublist 5
        ((breakdownTotals items f).mergeSort (fun a b => decide (b.2 ≤ a.2))))
    rw [mergeSort_filter_tied] at hsub
    exact hsub

/-! ### Claims C3 and C7 -/

/-- Claim C3, as stated, is false on its two-call clause: when the cache
already holds an unexpired entry, two `get` calls within `ttl` of each other
with `forceRefresh = false` trigger zero underlying fetches, not exactly one.
Concrete input: an entry valid until time 100, calls at times 0 and 5 with
`ttl = 10`. -/
theorem C3_counterexample :
    (twoCalls (some ⟨(0 : ℤ), 100⟩) 0 5 10 false false
        (Except.ok 1 : Except Unit ℤ) (Except.ok 2)).2.2.2 ≠ 1 := by decide

/-- Claim C3 (amended): (a) if an entry exists whose expiry is strictly later
than the current time and `forceRefresh` is false, `get` returns the stored
value without invoking the pipeline; (b) starting from a cache with no
unexpired entry at the first call, two `get` calls within `ttl` of each other
with `forceRefresh = false` and no external mutation return the identical
snapshot value and trigger exactly one underlying fetch; (c) a `get` call with
`forceRefresh = true` always runs the pipeline regardless of the entry's
expiry state. -/
theorem C3_cache_behavior {α ε : Type} :
    (∀ (e : CEntry α) (now ttl : ℤ) (p : Except ε α), now < e.expires_at →
      cacheGet (some e) now ttl false p = (.ok e.value, some e, false)) ∧
    (∀ (entry0 : Option (CEntry α)) (t0 t1 ttl : ℤ) (v1 v2 : α),
      (∀ e, entry0 = some e → e.expires_at ≤ t0) → t0 ≤ t1 → t1 < t0 + ttl →
      twoCalls entry0 t0 t1 ttl false false (Except.ok v1 : Except ε α) (Except.ok v2) =
        (.ok v1, .ok v1, some ⟨v1, t0 + ttl⟩, 1)) ∧
    (∀ (entry : Option (CEntry α)) (now ttl : ℤ) (p : Except ε α),
      (cacheGet entry now ttl true p).2.2 = true) := by
  refine ⟨?_, ?_, ?_⟩
  · intro e now ttl p h
    simp [cacheGet, h]
  · intro entry0 t0 t1 ttl v1 v2 hmiss h01 h1t
    have hfirst : cacheGet entry0 t0 ttl false (.ok v1 : Except ε α) =
        (.ok v1, some ⟨v1, t0 + ttl⟩, true) := by
      cases entry0 with
      | none => rfl
      | some e =>
        have he : ¬t0 < e.expires_at := not_lt.mpr (hmiss e rfl)
        simp [cacheGet, he, cacheRefresh]
    have hsecond : cacheGet (some ⟨v1, t0 + ttl⟩) t1 ttl false (.ok v2 : Except ε α) =
        (.ok v1, some ⟨v1, t0 + ttl⟩, false) := by
      simp [cacheGet, h1t]
    simp [twoCalls, hfirst, hsecond]
  · intro entry now ttl p
    cases entry with
    | none => cases p <;> rfl
    | some e =>
      have hred : cacheGet (some e) now ttl true p = cacheRefresh (some e) now ttl p := by
        simp [cacheGet]
      rw [hred]
      cases p <;> rfl

/-- Witness for `C3_cache_behavior`: concrete instances of the three clauses
(a valid-entry hit, the empty-start two-call scenario, and a forced refresh
over a still-valid entry). -/
theorem C3_cache_behavior_witness :
    cacheGet (some ⟨(7 : ℤ), 10⟩) 3 5 false (Except.ok 9 : Except Unit ℤ) =
      (.ok 7, some ⟨7, 10⟩, false) ∧
    twoCalls (none : Option (CEntry ℤ)) 0 4 10 false false
        (Except.ok 7 : Except Unit ℤ) (Except.ok 9) = (.ok 7, .ok 7, some ⟨7, 10⟩, 1) ∧
    (cacheGet (some ⟨(7 : ℤ), 100⟩) 3 5 true (Except.ok 9 : Except Unit ℤ)).2.2 = true :=
  ⟨C3_cache_behavior.1 ⟨7, 10⟩ 3 5 (Except.ok 9) (by decide),
   C3_cache_behavior.2.1 none 0 4 10 7 9 (by intro e h; simp at h) (by decide) (by decide),
   C3_cache_behavior.2.2 (some ⟨7, 100⟩) 3 5 (Except.ok 9)⟩

/-- Claim C7: whenever the pipeline raises, `DashboardCache.get` leaves the
existing cache slot unchanged (unconditionally — also on a cache hit, where
the pipeline never runs) and, whenever the refresh path is actually entered
(no valid entry, or a forced refresh), the error is propagated to the caller;
no snapshot is stored or returned in that case. -/
theorem C7_error_propagation {α ε : Type} (entry : Option (CEntry α))
    (now ttl : ℤ) (force : Bool) (err : ε) :
    (cacheGet entry now ttl force (.error err)).2.1 = entry ∧
    ((∀ e, entry = some e → force = true ∨ e.expires_at ≤ now) →
      (cacheGet entry now ttl force (.error err)).1 = .error err) := by
  constructor
  · cases entry with
    | none => rfl
    | some e =>
      by_cases h : force = false ∧ now < e.expires_at
      · simp [cacheGet, h]
      · simp [cacheGet, h, cacheRefresh]
  · intro hmiss
    cases entry with
    | none => rfl
    | some e =>
      rcases hmiss e rfl with hf | hexp
      · simp [cacheGet, hf, cacheRefresh]
      · have : ¬(force = false ∧ now < e.expires_at) := by
          rintro ⟨-, hlt⟩
          exact absurd hlt (not_lt.mpr hexp)
        simp [cacheGet, this, cacheRefresh]

/-- Witness for `C7_error_propagation`: an expired entry, an unforced call and
a failing pipeline leave the slot untouched and surface the error. -/
theorem C7_error_propagation_witness :
    (cacheGet (some ⟨(5 : ℤ), 3⟩) 10 60 false
        (Except.error "boom" : Except String ℤ)).2.1 = some ⟨5, 3⟩ ∧
    (cacheGet (some ⟨(5 : ℤ), 3⟩) 10 60 false
        (Except.error "boom" : Except String ℤ)).1 = .error "boom" :=
  ⟨(C7_error_propagation (some ⟨5, 3⟩) 10 60 false "boom").1,
   (C7_error_propagation (some ⟨5, 3⟩) 10 60 false "boom").2
     (by intro e h; injection h with h2; subst h2; exact Or.inr (by decide))⟩

/-! ### Claim C6 -/

theorem fetchLoop_const_total (api : ℕ → ApiPage) (ty : String) (T : ℕ)
    (f : ℕ → List Rec)
    (hmeta : ∀ p, (api p).total_pages = some T)
    (hparse : ∀ p, parse_groups ty (api p).data = .ok (f p)) :
    ∀ (n page : ℕ) (acc : List Rec) (reqs fuel : ℕ), page + n = T → 1 ≤ page →
      n + 1 ≤ fuel →
      fetchLoop api ty fuel page acc reqs =
        some (.ok (acc ++ ((List.range' page (n + 1)).map f).flatten, reqs + (n + 1))) := by
  intro n
  induction n with
  | zero =>
    intro page acc reqs fuel hpT hp1 hfuel
    cases fuel with
    | zero => omega
    | succ fu =>
      unfold fetchLoop
      rw [hparse page]
      have hstop : ((api page).total_pages.getD page) ≤ page := by
        rw [hmeta page]
        simp
        omega
      simp only [if_pos hstop]
      rw [List.range'_one]
      simp
  | succ n ih =>
    intro page acc reqs fuel hpT hp1 hfuel
    cases fuel with
    | zero => omega
    | succ fu =>
      unfold fetchLoop
      rw [hparse page]
      have hgo : ¬(((api page).total_pages.getD page) ≤ page) := by
        rw [hmeta page]
        simp
        omega
      simp only [if_neg hgo]
      rw [ih (page + 1) (acc ++ f page) (reqs + 1) fu (by omega) (by omega) (by omega)]
      have harith : reqs + 1 + (n + 1) = reqs + (n + 1 + 1) := by omega
      simp [List.range'_succ, List.flatten_cons, List.append_assoc, harith]

/-- Claim C6: (a) against an API whose pagination metadata constantly reports
`total_pages = T` with `T ≥ 1` and whose pages all parse, the fetcher issues
exactly `T` page requests (pages 1 through `T`), aggregates the records of all
`T` pages in page order, and terminates (any fuel of at least `T` suffices);
(b) when pagination metadata is absent from the first response, the fetcher
treats it as the last page and stops after exactly one request. -/
theorem C6_pagination (api : ℕ → ApiPage) (ty : String) (T : ℕ) (f : ℕ → List Rec)
    (g : List Rec) (fuel : ℕ)
    (hT : 1 ≤ T)
    (hmeta : ∀ p, (api p).total_pages = some T)
    (hparse : ∀ p, parse_groups ty (api p).data = .ok (f p))
    (hfuel : T ≤ fuel) :
    fetch_transactions api ty fuel =
      some (.ok (((List.range' 1 T).map f).flatten, T)) ∧
    (∀ api2 : ℕ → ApiPage, (api2 1).total_pages = none →
      parse_groups ty (api2 1).data = .ok g → 1 ≤ fuel →
      fetch_transactions api2 ty fuel = some (.ok (g, 1))) := by
  constructor
  · unfold fetch_transactions
    have h := fetchLoop_const_total api ty T f hmeta hparse (T - 1) 1 [] 0 fuel
      (by omega) (by omega) (by omega)
    rw [h]
    have : T - 1 + 1 = T := by omega
    rw [this]
    simp
  · intro api2 hnone hp hfu
    unfold fetch_transactions
    cases fuel with
    | zero => omega
    | succ fu =>
      unfold fetchLoop
      rw [hp]
      have hstop : ((api2 1).total_pages.getD 1) ≤ 1 := by
        rw [hnone]
        rfl
      simp only [if_pos hstop]
      simp

/-- Witness for `C6_pagination`: the spec's synthetic API reporting
`total_pages = 3` (with empty pages) is fetched with exactly 3 requests. -/
theorem C6_pagination_witness :
    fetch_transactions (fun _ => ⟨[], some 3⟩) "withdrawal" 5 =
      some (.ok ((((List.range' 1 3).map (fun _ => ([] : List Rec)))).flatten, 3)) :=
  (C6_pagination (fun _ => ⟨[], some 3⟩) "withdrawal" 3 (fun _ => []) [] 5
    (by decide) (fun _ => rfl) (fun _ => rfl) (by decide)).1

/-! ### Claim C8 -/

/-- Claim C8: for every TimeRange with `start <= end`, the average-per-month
values for withdrawal, deposit and net equal the corresponding total divided
by `max(monthCount, 1)`, and that divisor is positive — the division in
`prepare_context` never divides by zero. -/
theorem C8_averages (start end_ : Date) (txs : TxMap)
    (hs : start.validMonth) (he : end_.validMonth) (hle : dateLe start end_) :
    0 < max (month_sequence start end_).length 1 ∧
    max (month_sequence start end_).length 1 = (month_sequence start end_).length ∧
    ((max (month_sequence start end_).length 1 : ℕ) : ℚ) ≠ 0 ∧
    (prepare_context start end_ txs).average_withdrawal =
      totalsGet txs "withdrawal" / ((max (month_sequence start end_).length 1 : ℕ) : ℚ) ∧
    (prepare_context start end_ txs).average_deposit =
      totalsGet txs "deposit" / ((max (month_sequence start end_).length 1 : ℕ) : ℚ) ∧
    (prepare_context start end_ txs).average_net =
      totalsGet txs "net" / ((max (month_sequence start end_).length 1 : ℕ) : ℚ) := by
  have hAB : monthIdx (month_start start) ≤ monthIdx (month_start end_) := by
    rw [monthIdx_month_start, monthIdx_month_start]
    exact monthIdx_mono hs he hle
  have hlen : 1 ≤ (month_sequence start end_).length := by
    simp only [month_sequence_eq_range, List.length_map, List.length_range]
    omega
  have hne : month_sequence start end_ ≠ [] := by
    intro hh
    rw [hh] at hlen
    simp at hlen
  have hmax : max (month_sequence start end_).length 1 =
      (month_sequence start end_).length := Nat.max_eq_left hlen
  refine ⟨by omega, hmax, ?_, ?_, ?_, ?_⟩
  · rw [hmax]
    exact Nat.cast_ne_zero.mpr (by omega)
  · simp [prepare_context, totalsGet, hne]
  · simp [prepare_context, totalsGet, hne]
  · simp [prepare_context, totalsGet, hne]

/-- Witness for `C8_averages`: the single-month range 2024-02-10..2024-02-20
with no records has positive month count. -/
theorem C8_averages_witness :
    0 < max (month_sequence ⟨2024, 2, 10⟩ ⟨2024, 2, 20⟩).length 1 ∧
    max (month_sequence ⟨2024, 2, 10⟩ ⟨2024, 2, 20⟩).length 1 =
      (month_sequence ⟨2024, 2, 10⟩ ⟨2024, 2, 20⟩).length :=
  ⟨(C8_averages ⟨2024, 2, 10⟩ ⟨2024, 2, 20⟩ [] (by decide) (by decide) (by decide)).1,
   (C8_averages ⟨2024, 2, 10⟩ ⟨2024, 2, 20⟩ [] (by decide) (by decide) (by decide)).2.1⟩

/-! ### Claim C9 -/

theorem sumAmounts_append (l1 l2 : TxMap) (ty : String) :
    sumAmounts (l1 ++ l2) ty = sumAmounts l1 ty + sumAmounts l2 ty := by
  unfold sumAmounts
  rw [List.map_append, List.sum_append]

/-- Claim C9: a record whose booked month lies outside the month sequence is
counted in the overall type totals and in the breakdown aggregation, but
contributes to no entry of the monthly series: adding such a record leaves
`aggregate_monthly` unchanged while raising the type's total and its
breakdown-label amount by the record's amount. -/
theorem C9_out_of_range_record (txs1 txs2 : TxMap) (ty : String) (items : List Rec)
    (r : Rec) (months : List ℕ) (f : Rec → String)
    (hout : monthIdx r.bookedAt ∉ months)
    (hkeys : (((txs1 ++ (ty, items ++ [r]) :: txs2).map Prod.fst)).Nodup)
    (hnet : ty ≠ "net") :
    aggregate_monthly (txs1 ++ (ty, items ++ [r]) :: txs2) months =
      aggregate_monthly (txs1 ++ (ty, items) :: txs2) months ∧
    totalsGet (txs1 ++ (ty, items ++ [r]) :: txs2) ty =
      totalsGet (txs1 ++ (ty, items) :: txs2) ty + r.amount ∧
    amtFor (breakdownTotals (items ++ [r]) f) (breakdownLabel f r) =
      amtFor (breakdownTotals items f) (breakdownLabel f r) + r.amount := by
  have hkeys' : ((txs1 ++ (ty, items) :: txs2).map Prod.fst).Nodup := by
    have : ((txs1 ++ (ty, items) :: txs2).map Prod.fst) =
        ((txs1 ++ (ty, items ++ [r]) :: txs2).map Prod.fst) := by
      simp
    rw [this]
    exact hkeys
  have hbucket : ∀ m ∈ months, ∀ t : String,
      bucketAmt (txs1 ++ (ty, items ++ [r]) :: txs2) m t =
        bucketAmt (txs1 ++ (ty, items) :: txs2) m t := by
    intro m hm t
    have hr : ¬(monthIdx r.bookedAt = m) := fun hh => hout (hh ▸ hm)
    have hfil : (items ++ [r]).filter (fun x => monthIdx x.bookedAt = m) =
        items.filter (fun x => monthIdx x.bookedAt = m) := by
      rw [List.filter_append]
      simp [hr]
    unfold bucketAmt
    rw [List.map_append, List.map_append, List.sum_append, List.sum_append,
      List.map_cons, List.map_cons, List.sum_cons, List.sum_cons]
    simp only [hfil]
  refine ⟨?_, ?_, ?_⟩
  · unfold aggregate_monthly
    simp only [MonthlySeries.mk.injEq, true_and, and_true, eq_self_iff_true]
    refine ⟨?_, ?_, ?_, ?_⟩
    · exact List.map_congr_left (fun m hm => hbucket m hm "withdrawal")
    · exact List.map_congr_left (fun m hm => hbucket m hm "deposit")
    · exact List.map_congr_left (fun m hm => hbucket m hm "transfer")
    · exact List.map_congr_left (fun m hm => by
        rw [hbucket m hm "deposit", hbucket m hm "withdrawal"])
  · rw [totalsGet_eq_sumAmounts _ ty hkeys hnet, totalsGet_eq_sumAmounts _ ty hkeys' hnet,
      sumAmounts_append, sumAmounts_append]
    have h1 : sumAmounts ((ty, items ++ [r]) :: txs2) ty =
        ((items.map Rec.amount).sum + r.amount) + sumAmounts txs2 ty := by
      unfold sumAmounts
      rw [List.map_cons, List.sum_cons]
      simp [List.map_append]
    have h2 : sumAmounts ((ty, items) :: txs2) ty =
        (items.map Rec.amount).sum + sumAmounts txs2 ty := by
      unfold sumAmounts
      rw [List.map_cons, List.sum_cons]
      simp
    rw [h1, h2]
    ring
  · rw [breakdownTotals_amtFor, breakdownTotals_amtFor, List.filter_append]
    simp

/-- Witness for `C9_out_of_range_record`: a withdrawal booked 2023-01-15 is
outside the single-month sequence of January 2024. -/
theorem C9_out_of_range_record_witness :
    aggregate_monthly
        [("withdrawal", [⟨none, "withdrawal", ⟨2023, 1, 15⟩, 100, "", "c", "s", "d", ""⟩])]
        [24288] =
      aggregate_monthly [("withdrawal", [])] [24288] ∧
    totalsGet
        [("withdrawal", [⟨none, "withdrawal", ⟨2023, 1, 15⟩, 100, "", "c", "s", "d", ""⟩])]
        "withdrawal" =
      totalsGet [("withdrawal", [])] "withdrawal" +
        (⟨none, "withdrawal", ⟨2023, 1, 15⟩, 100, "", "c", "s", "d", ""⟩ : Rec).amount ∧
    amtFor (breakdownTotals [⟨none, "withdrawal", ⟨2023, 1, 15⟩, 100, "", "c", "s", "d", ""⟩]
        Rec.category)
        (breakdownLabel Rec.category
          ⟨none, "withdrawal", ⟨2023, 1, 15⟩, 100, "", "c", "s", "d", ""⟩) =
      amtFor (breakdownTotals [] Rec.category)
        (breakdownLabel Rec.category
          ⟨none, "withdrawal", ⟨2023, 1, 15⟩, 100, "", "c", "s", "d", ""⟩) +
        (⟨none, "withdrawal", ⟨2023, 1, 15⟩, 100, "", "c", "s", "d", ""⟩ : Rec).amount :=
  C9_out_of_range_record [] [] "withdrawal" []
    ⟨none, "withdrawal", ⟨2023, 1, 15⟩, 100, "", "c", "s", "d", ""⟩ [24288] Rec.category
    (by decide) (by decide) (by decide)

/-! ### Claim C10 -/

theorem decimalOfString_zero : decimalOfString "0" = some 0 := by
  simp [decimalOfString, digitsVal]

/-- Claim C10: a raw transaction payload with an absent `amount` field
normalizes successfully (provided its date parses) and yields a record with
amount 0: the missing field defaults to the string `"0"` rather than raising a
malformed-record error. -/
theorem C10_missing_amount (ty desc : String) (t : RawTransaction) (ds : String)
    (hamt : t.amount = none) (hdate : t.date = some ds)
    (hd : (parseDateStr ds).isSome = true) :
    (parse_transaction ty desc t).map Rec.amount = .ok 0 := by
  obtain ⟨d, hd'⟩ := Option.isSome_iff_exists.mp hd
  simp [parse_transaction, hamt, hdate, hd', decimalOfString_zero, Except.map]

/-- Witness for `C10_missing_amount`: a concrete payload with no amount field
and a valid date parses to amount 0. -/
theorem C10_missing_amount_witness :
    (parse_transaction "withdrawal" ""
        ⟨none, none, some "2024-01-15", none, none, none, none, none⟩).map Rec.amount =
      .ok 0 :=
  C10_missing_amount "withdrawal" ""
    ⟨none, none, some "2024-01-15", none, none, none, none, none⟩ "2024-01-15"
    rfl rfl (by decide)

end FD
